import Mathlib

/-!
Shallow embedding of the glyph-classification and feature-table-synthesis
engine of the `east_asian_spacing` package (files `spacing.py`, `font.py`,
`builder.py`).

Modelling conventions:
* glyph IDs and code points are natural numbers, glyph-ID sets are `Finset ℕ`;
* the external text shaper is an oracle `shape : Finset ℕ → Option String →
  Finset GlyphId` carried by the font model (it already includes the
  fullwidth-advance filtering performed by `GlyphSetTrio._shape`);
* Python `assert` failures and `raise` are modelled with `Option`/`Except`:
  a `none`/`.error` result is a fatal abort;
* the per-root classification cache (an attribute hung off the root font
  object in the source) is passed around explicitly, as an association list
  mirroring the Python `dict`;
* Python's `sorted(set_of_ints)` is modelled by `sortedIds`, an executable
  sorted extraction of a `Finset ℕ`.
-/

namespace ContextualSpacing

abbrev GlyphId := ℕ

/-- Executable model of Python `sorted(glyphs)` for a set of glyph IDs. -/
def sortedIds (s : Finset ℕ) : List ℕ :=
  match s.max with
  | none => []
  | some m => (List.range (m + 1)).filter (fun g => g ∈ s)

theorem sortedIds_sorted (s : Finset ℕ) : List.Sorted (· ≤ ·) (sortedIds s) := by
  unfold sortedIds
  match h : s.max with
  | none => simp
  | some m =>
    simp only
    exact ((List.sorted_lt_range (m + 1)).sublist (List.filter_sublist _)).imp le_of_lt

theorem mem_sortedIds (s : Finset ℕ) (g : ℕ) : g ∈ sortedIds s ↔ g ∈ s := by
  unfold sortedIds
  match h : s.max with
  | none => simp [Finset.max_eq_bot.mp h]
  | some m =>
    simp only [List.mem_filter, List.mem_range, decide_eq_true_eq]
    constructor
    · exact fun hm => hm.2
    · intro hg
      refine ⟨?_, hg⟩
      have := Finset.le_max hg
      rw [h] at this
      exact Nat.lt_succ_of_le (WithBot.coe_le_coe.mp this)

theorem sortedIds_nodup (s : Finset ℕ) : (sortedIds s).Nodup := by
  unfold sortedIds
  match h : s.max with
  | none => simp
  | some m => exact (List.nodup_range (m + 1)).sublist (List.filter_sublist _)

/-! ### OpenType table structures (the parts touched by the source) -/

/-- A GPOS value record as produced by `fontTools.otlLib.builder.buildValue`;
fields absent from the Python dict argument are zero. -/
structure ValueRecord where
  xPlacement : Int := 0
  yPlacement : Int := 0
  xAdvance : Int := 0
  yAdvance : Int := 0
deriving DecidableEq, Repr

/-- The three GPOS lookup shapes built by `GlyphSetTrio.build_lookup`:
a type-2 class-pair lookup (`PairPosBuilder.addClassPair`), a type-1
single-glyph lookup (`SinglePosBuilder`), and a type-8 chain-context lookup
(`ChainContextPosBuilder`) whose rule references another lookup by its
assigned index. -/
inductive Lookup where
  | pairPos (class1 : List String) (value1 : ValueRecord) (class2 : List String)
  | singlePos (mapping : List (String × ValueRecord))
  | chainContext (backtrack : List (List String)) (input : List (List String))
      (lookahead : List (List String)) (nested : List (List ℕ))
deriving DecidableEq, Repr

/-- `otTables.LangSys`. -/
structure LangSys where
  req_feature_index : ℕ
  feature_index : List ℕ
deriving DecidableEq, Repr

/-- `otTables.LangSysRecord`. -/
structure LangSysRecord where
  lang_sys_tag : String
  lang_sys : LangSys
deriving DecidableEq, Repr

/-- `otTables.ScriptRecord` (the script tag plus its `Script` payload). -/
structure ScriptRecord where
  script_tag : String
  default_lang_sys : Option LangSys
  lang_sys_records : List LangSysRecord
deriving DecidableEq, Repr

/-- `otTables.FeatureRecord`. -/
structure FeatureRecord where
  feature_tag : String
  lookup_list_index : List ℕ
deriving DecidableEq, Repr

/-- The parts of a GSUB/GPOS `table` object the source reads or writes. -/
structure OtTable where
  script_records : List ScriptRecord
  feature_records : List FeatureRecord
  lookups : List Lookup
deriving DecidableEq, Repr

/-! ### Font and configuration models -/

/-- Model of `Font` (`font.py`): the writing direction, the fullwidth
advance (`None` when `ensure_fullwidth_advance` could not determine it),
the shaping oracle for this font and for its horizontal counterpart
(`font.horizontal_font`), the glyph-naming oracle (`Font.glyph_names`),
and the GSUB/GPOS tables. -/
structure FontModel where
  is_vertical : Bool
  fullwidth_advance : Option ℕ
  shape : Finset ℕ → Option String → Finset GlyphId
  shape_horizontal : Finset ℕ → Option String → Finset GlyphId
  glyph_name : GlyphId → String
  gsub : Option OtTable
  gpos : Option OtTable

/-- Model of `Config` as read by `spacing.py`: the declared language and the
code-point groups. -/
structure Config where
  language : Option String
  cjk_opening : Finset ℕ
  cjk_closing : Finset ℕ
  quotes_opening : Finset ℕ
  quotes_closing : Finset ℕ
  cjk_middle : Finset ℕ
  cjk_period_comma : Finset ℕ
  cjk_column_semicolon : Finset ℕ
  cjk_exclam_question : Finset ℕ
  is_colon_semicolon_middle : Option Bool

/-- `Font.script_and_langsys_tags_for_table`: yields `(script, none)` for the
script itself followed by `(script, some lang)` for each language system. -/
def script_and_langsys_tags_for_table (table : OtTable) : List (String × Option String) :=
  table.script_records.flatMap fun sr =>
    (sr.script_tag, none) :: sr.lang_sys_records.map fun lr => (sr.script_tag, some lr.lang_sys_tag)

/-- `Font.script_and_langsys_tags`: chains the tags of the GSUB table and of
the GPOS table, in that order. -/
def script_and_langsys_tags (font : FontModel) : List (String × Option String) :=
  (match font.gsub with
   | none => []
   | some t => script_and_langsys_tags_for_table t) ++
  (match font.gpos with
   | none => []
   | some t => script_and_langsys_tags_for_table t)

/-- The sort key used by `Font.raise_require_language`:
`t[0] + ("" if t[1] is None else t[1])`. -/
def tagKey (t : String × Option String) : String := t.1 ++ t.2.getD ""

/-- Insertion step of the sort performed by `Font.raise_require_language`. -/
def insertTag (x : String × Option String) :
    List (String × Option String) → List (String × Option String)
  | [] => [x]
  | y :: ys => if tagKey x ≤ tagKey y then x :: y :: ys else y :: insertTag x ys

/-- Insertion sort by `tagKey` (models Python `sorted(..., key=...)`). -/
def sortTags (l : List (String × Option String)) : List (String × Option String) :=
  l.foldr insertTag []

/-- `Font.raise_require_language` enumerates
`sorted(set(self.script_and_langsys_tags), key=...)` in its message; this is
the list of tags carried by the raised error. -/
def require_language_tags (font : FontModel) : List (String × Option String) :=
  sortTags (script_and_langsys_tags font).dedup

theorem mem_insertTag (x y : String × Option String) (l : List (String × Option String)) :
    y ∈ insertTag x l ↔ y = x ∨ y ∈ l := by
  induction l with
  | nil => simp [insertTag]
  | cons z zs ih =>
    unfold insertTag
    by_cases h : tagKey x ≤ tagKey z
    · simp only [if_pos h, List.mem_cons]
    · simp only [if_neg h, List.mem_cons, ih]
      tauto

theorem mem_sortTags (l : List (String × Option String)) (y : String × Option String) :
    y ∈ sortTags l ↔ y ∈ l := by
  induction l with
  | nil => simp [sortTags]
  | cons z zs ih =>
    unfold sortTags at ih ⊢
    rw [List.foldr_cons, mem_insertTag, ih, List.mem_cons]

theorem mem_require_language_tags (font : FontModel) (t : String × Option String) :
    t ∈ require_language_tags font ↔ t ∈ script_and_langsys_tags font := by
  rw [require_language_tags, mem_sortTags, List.mem_dedup]

/-! ### Fatal errors -/

/-- Fatal aborts of the classifier: a failed `assert`, or
`Font.raise_require_language` carrying the font's script/language tags. -/
inductive SpacingError where
  | assertionFailed : SpacingError
  | requireLanguage : List (String × Option String) → SpacingError
deriving DecidableEq, Repr

/-! ### `GlyphSetTrio` and the per-root classification cache -/

/-- `GlyphSetTrio`: three glyph-ID sets.  Constructor argument order matches
`__init__(self, left, right, middle)`. -/
structure GlyphSetTrio where
  left : Finset GlyphId
  right : Finset GlyphId
  middle : Finset GlyphId
deriving DecidableEq

namespace GlyphSetTrio

/-- `GlyphSetTrio()` with all-default arguments. -/
def empty : GlyphSetTrio := ⟨∅, ∅, ∅⟩

/-- `GlyphSetTrio.assert_glyphs_are_disjoint`, as the boolean condition the
three Python `assert` statements test. -/
def assert_glyphs_are_disjoint (t : GlyphSetTrio) : Bool :=
  decide (t.left ∩ t.middle = ∅ ∧ t.left ∩ t.right = ∅ ∧ t.middle ∩ t.right = ∅)

/-- `GlyphSetTrio.unite`; a `none` argument models Python `other` being
`None` (the early `return`). -/
def unite (t : GlyphSetTrio) : Option GlyphSetTrio → GlyphSetTrio
  | none => t
  | some o => ⟨t.left ∪ o.left, t.right ∪ o.right, t.middle ∪ o.middle⟩

/-- `GlyphSetTrio.can_add_to_table`: Python truthiness of
`self.left and self.right`. -/
def can_add_to_table (t : GlyphSetTrio) : Bool :=
  decide (t.left ≠ ∅ ∧ t.right ≠ ∅)

end GlyphSetTrio

/-- The class tags `"L"`, `"M"`, `"R"` recorded by `GlyphTypeCache`. -/
inductive GlyphClass where
  | L | M | R
deriving DecidableEq, Repr

/-- `GlyphSetTrio.GlyphTypeCache`: the per-root-font `dict` from glyph ID to
class tag, modelled as an association list (later entries shadow earlier
ones, like `dict` assignment). -/
structure GlyphTypeCache where
  type_by_glyph_id : List (GlyphId × GlyphClass)
deriving DecidableEq, Repr

namespace GlyphTypeCache

/-- `GlyphTypeCache()`. -/
def empty : GlyphTypeCache := ⟨[]⟩

/-- `GlyphTypeCache.type_from_glyph_id`: `dict.get(glyph_id, None)`. -/
def type_from_glyph_id (c : GlyphTypeCache) (g : GlyphId) : Option GlyphClass :=
  (c.type_by_glyph_id.find? (fun e => e.1 = g)).map (·.2)

/-- `self.type_by_glyph_id[glyph_id] = value`. -/
def set_glyph (c : GlyphTypeCache) (g : GlyphId) (v : GlyphClass) : GlyphTypeCache :=
  ⟨(g, v) :: c.type_by_glyph_id⟩

/-- One iteration of `GlyphTypeCache.add_glyphs`: the `assert` that any
previously recorded class equals `value`, then the `dict` store. -/
def add_one_glyph (c : GlyphTypeCache) (g : GlyphId) (v : GlyphClass) :
    Option GlyphTypeCache :=
  if (type_from_glyph_id c g).getD v = v then some (set_glyph c g v) else none

/-- `GlyphTypeCache.add_glyphs`: iterates the glyph set (in the deterministic
sorted order), failing on the first class mismatch. -/
def add_glyphs (c : GlyphTypeCache) (glyphs : Finset GlyphId) (v : GlyphClass) :
    Option GlyphTypeCache :=
  (sortedIds glyphs).foldlM (fun c g => add_one_glyph c g v) c

/-- `GlyphTypeCache.add_trio`: records `left` as `"L"`, `middle` as `"M"`,
`right` as `"R"`, in that order. -/
def add_trio (c : GlyphTypeCache) (t : GlyphSetTrio) : Option GlyphTypeCache :=
  (add_glyphs c t.left .L).bind fun c =>
    (add_glyphs c t.middle .M).bind fun c =>
      add_glyphs c t.right .R

/-- `GlyphTypeCache.add_to_trio`: distributes `glyphs` into the trio's slots
according to their cached class and returns the uncached remainder. -/
def add_to_trio (c : GlyphTypeCache) (t : GlyphSetTrio) (glyphs : Finset GlyphId) :
    GlyphSetTrio × Finset GlyphId :=
  (⟨t.left ∪ glyphs.filter (fun g => type_from_glyph_id c g = some .L),
    t.right ∪ glyphs.filter (fun g => type_from_glyph_id c g = some .R),
    t.middle ∪ glyphs.filter (fun g => type_from_glyph_id c g = some .M)⟩,
   glyphs.filter (fun g => type_from_glyph_id c g = none))

end GlyphTypeCache

namespace GlyphSetTrio

/-- `GlyphSetTrio.add_to_cache` (`GlyphTypeCache.get(font, create=True)`
followed by `add_trio`): a previously absent cache starts empty. -/
def add_to_cache (t : GlyphSetTrio) (cache : Option GlyphTypeCache) :
    Option GlyphTypeCache :=
  (cache.getD GlyphTypeCache.empty).add_trio t

/-- `GlyphSetTrio.add_from_cache` (`GlyphTypeCache.get(font, create=False)`):
with no cache the glyphs are returned unchanged. -/
def add_from_cache (cache : Option GlyphTypeCache) (t : GlyphSetTrio)
    (glyphs : Finset GlyphId) : GlyphSetTrio × Finset GlyphId :=
  match cache with
  | none => (t, glyphs)
  | some c => c.add_to_trio t glyphs

/-! ### The four classifier groups -/

/-- `GlyphSetTrio.get_opening_closing`. -/
def get_opening_closing (font : FontModel) (config : Config) :
    Except SpacingError GlyphSetTrio :=
  let opening := config.cjk_opening ∪ config.quotes_opening
  let closing := config.cjk_closing ∪ config.quotes_closing
  let left := font.shape closing none
  let right := font.shape opening none
  let middle := font.shape config.cjk_middle none
  let result : GlyphSetTrio :=
    if font.is_vertical then
      let horizontal := font.shape_horizontal (opening ∪ closing) none
      ⟨left \ horizontal, right \ horizontal, middle⟩
    else ⟨left, right, middle⟩
  if assert_glyphs_are_disjoint result then .ok result else .error .assertionFailed

/-- `GlyphSetTrio.get_period_comma`.  Returns `none` when
`config.cjk_period_comma` is empty (Python `return None`). -/
def get_period_comma (font : FontModel) (config : Config) :
    Except SpacingError (Option GlyphSetTrio) :=
  let text := config.cjk_period_comma
  if text = ∅ then .ok none
  else
    let ja := font.shape text (some "JAN")
    let zht := font.shape text (some "ZHT")
    let zhs := font.shape text (some "ZHS")
    let kor := font.shape text (some "KOR")
    if zhs ≠ ja then .error .assertionFailed
    else if kor ≠ ja then .error .assertionFailed
    else
      (if ja = zht then
        match config.language with
        | none => Except.error (.requireLanguage (require_language_tags font))
        | some lang =>
          if lang = "ZHT" ∨ lang = "ZHH" then Except.ok ((∅ : Finset GlyphId), zht)
          else Except.ok (ja, (∅ : Finset GlyphId))
      else Except.ok (ja, zht)).bind fun p =>
        if p.1 ∩ p.2 ≠ ∅ then .error .assertionFailed
        else
          let result : GlyphSetTrio := ⟨p.1, ∅, p.2⟩
          if assert_glyphs_are_disjoint result then .ok (some result)
          else .error .assertionFailed

/-- The `__debug__` block of `get_colon_semicolon`, run only in horizontal
flow: `assert zht == ja` and `assert kor == ja`. -/
def colon_debug_check (font : FontModel) (text : Finset ℕ) (ja : Finset GlyphId) :
    Except SpacingError Unit :=
  if font.is_vertical then .ok ()
  else
    let zht := font.shape text (some "ZHT")
    let kor := font.shape text (some "KOR")
    if zht ≠ ja then .error .assertionFailed
    else if kor ≠ ja then .error .assertionFailed
    else .ok ()

/-- The `ja == zhs` disambiguation block of `get_colon_semicolon`. -/
def colon_disambiguate (font : FontModel) (config : Config)
    (ja zhs : Finset GlyphId) : Except SpacingError (Finset GlyphId × Finset GlyphId) :=
  if ja = zhs then
    match config.language with
    | none => .error (.requireLanguage (require_language_tags font))
    | some lang =>
      if lang = "ZHS" then .ok (∅, zhs) else .ok (ja, ∅)
  else .ok (ja, zhs)

/-- The tail of `get_colon_semicolon` from `assert ja.isdisjoint(zhs)`
(line 196) to the end: the vertical branch adds `ja - ja_horizontal` to
`middle`, the horizontal branch adds `ja` to `middle` and `zhs` to `left`
then re-checks disjointness. -/
def colon_finish (font : FontModel) (config : Config) (text : Finset ℕ)
    (result : GlyphSetTrio) (ja zhs : Finset GlyphId) :
    Except SpacingError GlyphSetTrio :=
  if ja ∩ zhs ≠ ∅ then .error .assertionFailed
  else if font.is_vertical then
    if config.language = none ∨ config.language = some "JAN" then
      .ok { result with
        middle := result.middle ∪ (ja \ font.shape_horizontal text (some "JAN")) }
    else .ok result
  else
    if assert_glyphs_are_disjoint
        { result with middle := result.middle ∪ ja, left := result.left ∪ zhs } then
      .ok { result with middle := result.middle ∪ ja, left := result.left ∪ zhs }
    else .error .assertionFailed

/-- `GlyphSetTrio.get_colon_semicolon`.  The `Sum.inl` case models the early
`return result` when both post-cache probe sets are empty. -/
def get_colon_semicolon (font : FontModel) (config : Config)
    (cache : Option GlyphTypeCache) : Except SpacingError GlyphSetTrio :=
  let text := config.cjk_column_semicolon
  (match config.is_colon_semicolon_middle with
   | none =>
     let ja := font.shape text (some "JAN")
     let zhs := font.shape text (some "ZHS")
     (colon_debug_check font text ja).bind fun _ =>
       let r1 := add_from_cache cache empty ja
       let r2 := add_from_cache cache r1.1 zhs
       let result := r2.1
       let ja := r1.2
       let zhs := r2.2
       if ja = ∅ ∧ zhs = ∅ then Except.ok (Sum.inl result)
       else
         (colon_disambiguate font config ja zhs).bind fun p =>
           Except.ok (Sum.inr (result, p.1, p.2))
   | some b =>
     let glyphs := font.shape text config.language
     let p : Finset GlyphId × Finset GlyphId :=
       if b then (glyphs, ∅) else (∅, glyphs)
     Except.ok (Sum.inr (empty, p.1, p.2))).bind fun s =>
    match s with
    | Sum.inl result => Except.ok result
    | Sum.inr (result, ja, zhs) => colon_finish font config text result ja zhs

/-- `GlyphSetTrio.get_exclam_question`.  Returns `none` in vertical flow. -/
def get_exclam_question (font : FontModel) (config : Config) :
    Except SpacingError (Option GlyphSetTrio) :=
  if font.is_vertical then .ok none
  else
    let text := config.cjk_exclam_question
    let ja := font.shape text (some "JAN")
    let zhs := font.shape text (some "ZHS")
    let zht := font.shape text (some "ZHT")
    let kor := font.shape text (some "KOR")
    if zht ≠ ja then .error .assertionFailed
    else if kor ≠ ja then .error .assertionFailed
    else
      (if ja = zhs then
        match config.language with
        | none => Except.error (.requireLanguage (require_language_tags font))
        | some lang =>
          if lang = "ZHS" then Except.ok ((∅ : Finset GlyphId), zhs)
          else Except.ok (ja, (∅ : Finset GlyphId))
      else Except.ok (ja, zhs)).bind fun p =>
        if p.1 ∩ p.2 ≠ ∅ then .error .assertionFailed
        else
          let result : GlyphSetTrio := ⟨p.2, ∅, ∅⟩
          if assert_glyphs_are_disjoint result then .ok (some result)
          else .error .assertionFailed

/-- `GlyphSetTrio.add_glyphs`: early-returns when the fullwidth advance is
unavailable or the config resolves to `None`; otherwise unites the four
group results in order, records them in the cache, and re-checks
disjointness. -/
def add_glyphs (self : GlyphSetTrio) (font : FontModel) (config : Option Config)
    (cache : Option GlyphTypeCache) :
    Except SpacingError (GlyphSetTrio × Option GlyphTypeCache) :=
  match font.fullwidth_advance with
  | none => .ok (self, cache)
  | some _ =>
    match config with
    | none => .ok (self, cache)
    | some config =>
      (get_opening_closing font config).bind fun r1 =>
        (get_period_comma font config).bind fun r2 =>
          (get_colon_semicolon font config cache).bind fun r3 =>
            (get_exclam_question font config).bind fun r4 =>
              let t := ((((self.unite (some r1)).unite r2).unite (some r3)).unite r4)
              match t.add_to_cache cache with
              | none => .error .assertionFailed
              | some c =>
                if assert_glyphs_are_disjoint t then .ok (t, some c)
                else .error .assertionFailed

end GlyphSetTrio

/-! ### Lookup synthesis (`build_lookup`, `add_to_table`) -/

/-- `math.floor(em / 2)` for a natural `em`. -/
def half_em (em : ℕ) : ℕ := em / 2

/-- `buildValue({"YAdvance": -half_em})` / `buildValue({"XAdvance": -half_em})`. -/
def left_half_value (is_vertical : Bool) (half : ℕ) : ValueRecord :=
  if is_vertical then { yAdvance := -(half : Int) }
  else { xAdvance := -(half : Int) }

/-- `buildValue({"YPlacement": half_em, "YAdvance": -half_em})` /
`buildValue({"XPlacement": -half_em, "XAdvance": -half_em})`. -/
def right_half_value (is_vertical : Bool) (half : ℕ) : ValueRecord :=
  if is_vertical then { yPlacement := (half : Int), yAdvance := -(half : Int) }
  else { xPlacement := -(half : Int), xAdvance := -(half : Int) }

/-- `tuple(font.glyph_names(sorted(glyphs)))`. -/
def glyph_names_sorted (font : FontModel) (glyphs : Finset GlyphId) : List String :=
  (sortedIds glyphs).map font.glyph_name

namespace GlyphSetTrio

/-- `GlyphSetTrio.build_lookup`: appends the class-pair lookup, the
single-glyph lookup and the chain-context lookup to `lookups` and returns
the indices recorded in `lookup_indices` together with the grown list.
Fails when the fullwidth advance is unset or `half_em` is zero
(`assert half_em > 0`). -/
def build_lookup (t : GlyphSetTrio) (font : FontModel) (lookups : List Lookup) :
    Option (List ℕ × List Lookup) :=
  match font.fullwidth_advance with
  | none => none
  | some em =>
    let left := glyph_names_sorted font t.left
    let right := glyph_names_sorted font t.right
    let middle := glyph_names_sorted font t.middle
    let half := half_em em
    if half = 0 then none
    else
      let lhv := left_half_value font.is_vertical half
      let rhv := right_half_value font.is_vertical half
      let lookup_indices : List ℕ := []
      let pair_lookup := Lookup.pairPos left lhv (left ++ middle ++ right)
      let lookup_indices := lookup_indices ++ [lookups.length]
      let lookups := lookups ++ [pair_lookup]
      let single_lookup := Lookup.singlePos (right.map fun g => (g, rhv))
      let single_lookup_index := lookups.length
      let lookups := lookups ++ [single_lookup]
      let chain_lookup := Lookup.chainContext [middle ++ right] [right] []
        [[single_lookup_index]]
      let lookup_indices := lookup_indices ++ [lookups.length]
      let lookups := lookups ++ [chain_lookup]
      some (lookup_indices, lookups)

end GlyphSetTrio

/-- `Font._has_ottable_feature`. -/
def has_ottable_feature (table : OtTable) (feature_tag : String) : Bool :=
  table.feature_records.any (fun fr => fr.feature_tag = feature_tag)

namespace GlyphSetTrio

/-- `GlyphSetTrio.add_to_table`: guards (`can_add_to_table`, disjointness,
feature absence), builds the lookups, appends one feature record pointing at
`lookup_indices`, and appends the new feature index to every script's
`DefaultLangSys` (when present) and to every `LangSysRecord`. -/
def add_to_table (t : GlyphSetTrio) (font : FontModel) (table : OtTable)
    (feature_tag : String) : Option OtTable :=
  if ¬ t.can_add_to_table then none
  else if ¬ t.assert_glyphs_are_disjoint then none
  else if has_ottable_feature table feature_tag then none
  else
    (t.build_lookup font table.lookups).bind fun r =>
      let lookup_indices := r.1
      let lookups := r.2
      let feature_index := table.feature_records.length
      let feature_record : FeatureRecord := ⟨feature_tag, lookup_indices⟩
      let features := table.feature_records ++ [feature_record]
      let scripts := table.script_records.map fun sr =>
        { sr with
          default_lang_sys := sr.default_lang_sys.map fun ls =>
            { ls with feature_index := ls.feature_index ++ [feature_index] },
          lang_sys_records := sr.lang_sys_records.map fun lr =>
            { lr with lang_sys :=
              { lr.lang_sys with
                feature_index := lr.lang_sys.feature_index ++ [feature_index] } } }
      some ⟨scripts, features, lookups⟩

end GlyphSetTrio

/-! ### `Font.add_gpos_table` and `EastAsianSpacing` -/

/-- `Font.create_script_record`: the `DFLT` script record with an empty
default language system (`ReqFeatureIndex = 0xFFFF`, no feature indices) and
no explicit language-system records. -/
def create_script_record : ScriptRecord :=
  { script_tag := "DFLT"
    default_lang_sys := some { req_feature_index := 0xFFFF, feature_index := [] }
    lang_sys_records := [] }

/-- `Font.add_gpos_table`: a fresh GPOS table holding exactly the `DFLT`
script record, no features and no lookups. -/
def add_gpos_table : OtTable :=
  { script_records := [create_script_record]
    feature_records := []
    lookups := [] }

/-- `EastAsianSpacing`: the horizontal and vertical trios. -/
structure EastAsianSpacing where
  horizontal : GlyphSetTrio
  vertical : GlyphSetTrio
deriving DecidableEq

namespace EastAsianSpacing

/-- `EastAsianSpacing()`. -/
def empty : EastAsianSpacing := ⟨GlyphSetTrio.empty, GlyphSetTrio.empty⟩

/-- `EastAsianSpacing.unite` (both trio objects are always truthy in the
source, so both slots unite). -/
def unite (s o : EastAsianSpacing) : EastAsianSpacing :=
  ⟨s.horizontal.unite (some o.horizontal), s.vertical.unite (some o.vertical)⟩

/-- `EastAsianSpacing.can_add_to_font`. -/
def can_add_to_font (s : EastAsianSpacing) : Bool :=
  s.horizontal.can_add_to_table || s.vertical.can_add_to_table

/-- `EastAsianSpacing.add_to_font`: fetches or creates the GPOS table, then
adds the `chws` feature from the horizontal trio and — when a vertical font
exists — the `vchw` feature from the vertical trio.  Returns the resulting
GPOS `table`. -/
def add_to_font (s : EastAsianSpacing) (font : FontModel)
    (vertical_font : Option FontModel) : Option OtTable :=
  if ¬ s.can_add_to_font then none
  else if font.is_vertical then none
  else
    let table := match font.gpos with
      | some t => t
      | none => add_gpos_table
    (if s.horizontal.can_add_to_table then
        s.horizontal.add_to_table font table "chws"
      else some table).bind fun table =>
      match vertical_font with
      | some vf =>
        if s.vertical.can_add_to_table then s.vertical.add_to_table vf table "vchw"
        else some table
      | none => some table

end EastAsianSpacing

/-! ### `Builder.build_collection` grouping -/

/-- One face of a collection as seen by `Builder.build_collection`: whether
it already carries the spacing feature, the raw file offset of its GPOS
table (`Font.reader_offset("GPOS")`, `none` when absent), and the
classification result `EastAsianSpacing.add_glyphs` derives for this face
alone. -/
structure FaceModel where
  has_feature : Bool
  gpos_offset : Option ℕ
  derived : EastAsianSpacing
deriving DecidableEq

/-- One entry of `spacing_by_offset`: the offset key, the (united) spacing,
and the indices of the faces sharing it (`fonts` list). -/
structure SpacingEntry where
  offset_key : Option ℕ
  spacing : EastAsianSpacing
  face_indices : List ℕ
deriving DecidableEq

/-- Inserting one face into `spacing_by_offset`: an existing entry with the
same key unites the face's glyphs and appends the face; otherwise a fresh
entry is appended (Python `dict` preserves insertion order). -/
def update_groups (groups : List SpacingEntry) (key : Option ℕ)
    (sp : EastAsianSpacing) (i : ℕ) : List SpacingEntry :=
  if groups.any (fun e => e.offset_key = key) then
    groups.map fun e =>
      if e.offset_key = key then
        { e with spacing := e.spacing.unite sp, face_indices := e.face_indices ++ [i] }
      else e
  else groups ++ [⟨key, sp, [i]⟩]

/-- The grouping loop of `Builder.build_collection`: one pass over the faces
building `spacing_by_offset`.  A face that already has the spacing feature
makes the whole method return with nothing built (`return`), modelled as
`none`. -/
def build_collection_groups (faces : List FaceModel) : Option (List SpacingEntry) :=
  (faces.enum.foldlM (fun groups fi =>
      if fi.2.has_feature then none
      else some (update_groups groups fi.2.gpos_offset fi.2.derived fi.1))
    ([] : List SpacingEntry))

/-- Per-slot union of the spacings derived by the faces listed in `ids`. -/
def union_spacing_of (faces : List FaceModel) (ids : List ℕ) : EastAsianSpacing :=
  ids.foldl (fun acc i =>
    acc.unite (((faces.get? i).map FaceModel.derived).getD EastAsianSpacing.empty))
    EastAsianSpacing.empty

/-! ### Generic helpers -/

instance {ε α : Type} [DecidableEq ε] [DecidableEq α] : DecidableEq (Except ε α) :=
  fun a b =>
    match a, b with
    | .ok x, .ok y => if h : x = y then .isTrue (by rw [h]) else .isFalse (by simp [h])
    | .error x, .error y => if h : x = y then .isTrue (by rw [h]) else .isFalse (by simp [h])
    | .ok _, .error _ => .isFalse (by simp)
    | .error _, .ok _ => .isFalse (by simp)

/-- Unfolding of a successful disjointness `assert`. -/
theorem assert_disjoint_spec (t : GlyphSetTrio)
    (h : t.assert_glyphs_are_disjoint = true) :
    t.left ∩ t.middle = ∅ ∧ t.left ∩ t.right = ∅ ∧ t.middle ∩ t.right = ∅ :=
  of_decide_eq_true h

/-! ### Cache lemmas (towards C2) -/

namespace GlyphTypeCache

theorem type_from_set_glyph (c : GlyphTypeCache) (g x : GlyphId) (v : GlyphClass) :
    type_from_glyph_id (set_glyph c x v) g =
      if x = g then some v else type_from_glyph_id c g := by
  unfold type_from_glyph_id set_glyph
  by_cases h : x = g
  · simp [List.find?, h]
  · simp [List.find?, h]

theorem add_one_glyph_lookup (c c' : GlyphTypeCache) (g x : GlyphId) (v : GlyphClass)
    (h : add_one_glyph c x v = some c') :
    type_from_glyph_id c' g = if x = g then some v else type_from_glyph_id c g := by
  unfold add_one_glyph at h
  split at h
  · cases h
    exact type_from_set_glyph c g x v
  · cases h

theorem add_one_glyph_consistent (c c' : GlyphTypeCache) (x : GlyphId)
    (v v0 : GlyphClass) (h : add_one_glyph c x v = some c')
    (hl : type_from_glyph_id c x = some v0) : v0 = v := by
  unfold add_one_glyph at h
  split at h
  · next hc =>
    rw [hl] at hc
    simpa using hc
  · cases h

theorem foldl_add_preserve (l : List GlyphId) (c c' : GlyphTypeCache) (v : GlyphClass)
    (g : GlyphId) (hg : g ∉ l)
    (h : l.foldlM (fun c x => add_one_glyph c x v) c = some c') :
    type_from_glyph_id c' g = type_from_glyph_id c g := by
  induction l generalizing c with
  | nil => simp at h; rw [h]
  | cons x xs ih =>
    rw [List.foldlM_cons] at h
    cases hx : add_one_glyph c x v with
    | none => rw [hx] at h; cases h
    | some c1 =>
      rw [hx] at h
      simp only [Option.bind_eq_bind] at h
      have hgx : g ≠ x := fun he => hg (he ▸ List.mem_cons_self x xs)
      have hgxs : g ∉ xs := fun hm => hg (List.mem_cons_of_mem x hm)
      rw [ih c1 hgxs h, add_one_glyph_lookup c c1 g x v hx,
        if_neg (fun he => hgx he.symm)]

theorem foldl_add_mem (l : List GlyphId) (c c' : GlyphTypeCache) (v v0 : GlyphClass)
    (g : GlyphId) (hnd : l.Nodup) (hg : g ∈ l)
    (h : l.foldlM (fun c x => add_one_glyph c x v) c = some c')
    (hl : type_from_glyph_id c g = some v0) :
    v0 = v ∧ type_from_glyph_id c' g = some v := by
  induction l generalizing c with
  | nil => cases hg
  | cons x xs ih =>
    rw [List.foldlM_cons] at h
    cases hx : add_one_glyph c x v with
    | none => rw [hx] at h; cases h
    | some c1 =>
      rw [hx] at h
      simp only [Option.bind_eq_bind] at h
      rcases List.mem_cons.mp hg with he | hm
      · subst he
        have hv0 : v0 = v := add_one_glyph_consistent c c1 g v v0 hx hl
        have hnotin : g ∉ xs := (List.nodup_cons.mp hnd).1
        have := foldl_add_preserve xs c1 c' v g hnotin h
        rw [this, add_one_glyph_lookup c c1 g g v hx, if_pos rfl]
        exact ⟨hv0, rfl⟩
      · have hgx : x ≠ g := fun he => (List.nodup_cons.mp hnd).1 (he ▸ hm)
        have hl1 : type_from_glyph_id c1 g = some v0 := by
          rw [add_one_glyph_lookup c c1 g x v hx, if_neg hgx]
          exact hl
        exact ih c1 (List.nodup_cons.mp hnd).2 hm h hl1

end GlyphTypeCache

/-! ### Classified-trio machinery (towards C1 and C7) -/

/-- The class the (optional) per-root cache records for a glyph. -/
def cache_class (cache : Option GlyphTypeCache) (g : GlyphId) : Option GlyphClass :=
  match cache with
  | none => none
  | some c => c.type_from_glyph_id g

/-- A trio whose `left`/`right` members are exactly cache-classified `L`/`R`
glyphs and whose `middle` members are cache-classified `M` or fresh. -/
def ClassifiedBy (f : GlyphId → Option GlyphClass) (t : GlyphSetTrio) : Prop :=
  (∀ g ∈ t.left, f g = some .L) ∧ (∀ g ∈ t.right, f g = some .R) ∧
  (∀ g ∈ t.middle, f g = some .M ∨ f g = none)

theorem ClassifiedBy.disjoint_triple {f : GlyphId → Option GlyphClass}
    {t : GlyphSetTrio} (h : ClassifiedBy f t) :
    t.left ∩ t.middle = ∅ ∧ t.left ∩ t.right = ∅ ∧ t.middle ∩ t.right = ∅ := by
  obtain ⟨hl, hr, hm⟩ := h
  refine ⟨?_, ?_, ?_⟩ <;> rw [Finset.eq_empty_iff_forall_not_mem] <;> intro g hg <;>
    rw [Finset.mem_inter] at hg
  · rcases hm g hg.2 with h1 | h1 <;> rw [hl g hg.1] at h1 <;> simp at h1
  · have h1 := hr g hg.2
    rw [hl g hg.1] at h1
    simp at h1
  · rcases hm g hg.1 with h1 | h1 <;> rw [hr g hg.2] at h1 <;> simp at h1

/-- A trio every member of which carries its slot's cache class:
the shape of the trios accumulated by `add_from_cache`. -/
def StrictlyClassifiedBy (f : GlyphId → Option GlyphClass) (t : GlyphSetTrio) : Prop :=
  (∀ g ∈ t.left, f g = some .L) ∧ (∀ g ∈ t.right, f g = some .R) ∧
  (∀ g ∈ t.middle, f g = some .M)

theorem StrictlyClassifiedBy.weaken {f : GlyphId → Option GlyphClass}
    {t : GlyphSetTrio} (h : StrictlyClassifiedBy f t) : ClassifiedBy f t :=
  ⟨h.1, h.2.1, fun g hg => Or.inl (h.2.2 g hg)⟩

theorem strictlyClassifiedBy_empty_trio (f : GlyphId → Option GlyphClass) :
    StrictlyClassifiedBy f GlyphSetTrio.empty := by
  refine ⟨?_, ?_, ?_⟩ <;> intro g hg <;> cases hg

theorem add_from_cache_classified (cache : Option GlyphTypeCache)
    (t : GlyphSetTrio) (glyphs : Finset GlyphId)
    (ht : StrictlyClassifiedBy (cache_class cache) t) :
    StrictlyClassifiedBy (cache_class cache)
      (GlyphSetTrio.add_from_cache cache t glyphs).1 ∧
    (∀ g ∈ (GlyphSetTrio.add_from_cache cache t glyphs).2,
      cache_class cache g = none) := by
  cases cache with
  | none => exact ⟨ht, fun g _ => rfl⟩
  | some c =>
    simp only [GlyphSetTrio.add_from_cache, GlyphTypeCache.add_to_trio]
    obtain ⟨hl, hr, hm⟩ := ht
    refine ⟨⟨?_, ?_, ?_⟩, ?_⟩
    · intro g hg
      rcases Finset.mem_union.mp hg with hg | hg
      · exact hl g hg
      · exact (Finset.mem_filter.mp hg).2
    · intro g hg
      rcases Finset.mem_union.mp hg with hg | hg
      · exact hr g hg
      · exact (Finset.mem_filter.mp hg).2
    · intro g hg
      rcases Finset.mem_union.mp hg with hg | hg
      · exact hm g hg
      · exact (Finset.mem_filter.mp hg).2
    · intro g hg
      exact (Finset.mem_filter.mp hg).2

namespace GlyphSetTrio

theorem colon_disambiguate_subset (font : FontModel) (config : Config)
    (ja zhs : Finset GlyphId) (p : Finset GlyphId × Finset GlyphId)
    (h : colon_disambiguate font config ja zhs = .ok p) :
    p.1 ⊆ ja ∧ p.2 ⊆ zhs := by
  unfold colon_disambiguate at h
  split at h
  · match hl : config.language with
    | none => rw [hl] at h; cases h
    | some lang =>
      rw [hl] at h
      dsimp only at h
      by_cases hlang : lang = "ZHS"
      · rw [if_pos hlang] at h
        cases h
        exact ⟨Finset.empty_subset _, fun _ hg => hg⟩
      · rw [if_neg hlang] at h
        cases h
        exact ⟨fun _ hg => hg, Finset.empty_subset _⟩
  · cases h
    exact ⟨fun _ hg => hg, fun _ hg => hg⟩

theorem colon_finish_disjoint (f : GlyphId → Option GlyphClass)
    (font : FontModel) (config : Config) (text : Finset ℕ)
    (result : GlyphSetTrio) (ja zhs : Finset GlyphId) (t : GlyphSetTrio)
    (hres : StrictlyClassifiedBy f result) (hja : ∀ g ∈ ja, f g = none)
    (h : colon_finish font config text result ja zhs = .ok t) :
    t.left ∩ t.middle = ∅ ∧ t.left ∩ t.right = ∅ ∧ t.middle ∩ t.right = ∅ := by
  unfold colon_finish at h
  split at h
  · cases h
  · split at h
    · split at h
      · cases h
        apply ClassifiedBy.disjoint_triple (f := f)
        refine ⟨hres.1, hres.2.1, ?_⟩
        intro g hg
        rcases Finset.mem_union.mp hg with hg | hg
        · exact Or.inl (hres.2.2 g hg)
        · exact Or.inr (hja g (Finset.mem_sdiff.mp hg).1)
      · cases h
        exact hres.weaken.disjoint_triple
    · split at h
      · cases h
        exact assert_disjoint_spec _ (by assumption)
      · cases h

theorem colon_finish_vertical (f : GlyphId → Option GlyphClass)
    (font : FontModel) (config : Config) (text : Finset ℕ)
    (result : GlyphSetTrio) (ja zhs : Finset GlyphId) (t : GlyphSetTrio)
    (hv : font.is_vertical = true) (hres : StrictlyClassifiedBy f result)
    (h : colon_finish font config text result ja zhs = .ok t) :
    (∀ g ∈ t.left, f g = some .L) ∧ (∀ g ∈ t.right, f g = some .R) ∧
    (∀ g ∈ t.middle, f g = some .M ∨
      g ∉ font.shape_horizontal text (some "JAN")) := by
  unfold colon_finish at h
  split at h
  · cases h
  · split at h
    · cases h
      refine ⟨hres.1, hres.2.1, ?_⟩
      intro g hg
      rcases Finset.mem_union.mp hg with hg | hg
      · exact Or.inl (hres.2.2 g hg)
      · exact Or.inr (Finset.mem_sdiff.mp hg).2
    · cases h
      exact ⟨hres.1, hres.2.1, fun g hg => Or.inl (hres.2.2 g hg)⟩

end GlyphSetTrio

/-- Splitting a successful `Except.bind`. -/
theorem except_bind_ok {ε α β : Type} (e : Except ε α) (f : α → Except ε β) (b : β)
    (h : e.bind f = .ok b) : ∃ a, e = .ok a ∧ f a = .ok b := by
  cases e with
  | error e => cases h
  | ok a => exact ⟨a, rfl, h⟩

namespace GlyphSetTrio

theorem ok_of_check (R g : GlyphSetTrio)
    (h : (if R.assert_glyphs_are_disjoint then (Except.ok R : Except SpacingError GlyphSetTrio)
          else .error .assertionFailed) = .ok g) :
    g = R ∧ R.assert_glyphs_are_disjoint = true := by
  by_cases hb : R.assert_glyphs_are_disjoint = true
  · rw [if_pos hb] at h
    cases h
    exact ⟨rfl, hb⟩
  · rw [if_neg hb] at h
    cases h

theorem ok_some_of_check (R g : GlyphSetTrio)
    (h : (if R.assert_glyphs_are_disjoint then
            (Except.ok (some R) : Except SpacingError (Option GlyphSetTrio))
          else .error .assertionFailed) = .ok (some g)) :
    g = R ∧ R.assert_glyphs_are_disjoint = true := by
  by_cases hb : R.assert_glyphs_are_disjoint = true
  · rw [if_pos hb] at h
    simp only [Except.ok.injEq, Option.some.injEq] at h
    exact ⟨h.symm, hb⟩
  · rw [if_neg hb] at h
    cases h

theorem get_opening_closing_disjoint (font : FontModel) (config : Config)
    (g1 : GlyphSetTrio) (h : get_opening_closing font config = .ok g1) :
    g1.left ∩ g1.middle = ∅ ∧ g1.left ∩ g1.right = ∅ ∧ g1.middle ∩ g1.right = ∅ := by
  unfold get_opening_closing at h
  dsimp only at h
  obtain ⟨hg, hb⟩ := ok_of_check _ _ h
  subst hg
  exact assert_disjoint_spec _ hb

theorem get_period_comma_disjoint (font : FontModel) (config : Config)
    (g2 : GlyphSetTrio) (h : get_period_comma font config = .ok (some g2)) :
    g2.left ∩ g2.middle = ∅ ∧ g2.left ∩ g2.right = ∅ ∧ g2.middle ∩ g2.right = ∅ := by
  unfold get_period_comma at h
  by_cases h0 : config.cjk_period_comma = ∅
  · rw [if_pos h0] at h
    exact absurd h (by simp)
  · rw [if_neg h0] at h
    by_cases h1 : font.shape config.cjk_period_comma (some "ZHS") ≠
        font.shape config.cjk_period_comma (some "JAN")
    · rw [if_pos h1] at h
      cases h
    · rw [if_neg h1] at h
      by_cases h2 : font.shape config.cjk_period_comma (some "KOR") ≠
          font.shape config.cjk_period_comma (some "JAN")
      · rw [if_pos h2] at h
        cases h
      · rw [if_neg h2] at h
        obtain ⟨p, hdis, hp⟩ := except_bind_ok _ _ _ h
        dsimp only at hp
        by_cases h3 : p.1 ∩ p.2 ≠ ∅
        · rw [if_pos h3] at hp
          cases hp
        · rw [if_neg h3] at hp
          obtain ⟨hg, hb⟩ := ok_some_of_check _ _ hp
          subst hg
          exact assert_disjoint_spec _ hb

theorem get_exclam_question_disjoint (font : FontModel) (config : Config)
    (g4 : GlyphSetTrio) (h : get_exclam_question font config = .ok (some g4)) :
    g4.left ∩ g4.middle = ∅ ∧ g4.left ∩ g4.right = ∅ ∧ g4.middle ∩ g4.right = ∅ := by
  unfold get_exclam_question at h
  by_cases h0 : font.is_vertical = true
  · rw [if_pos h0] at h
    exact absurd h (by simp)
  · rw [if_neg h0] at h
    by_cases h1 : font.shape config.cjk_exclam_question (some "ZHT") ≠
        font.shape config.cjk_exclam_question (some "JAN")
    · rw [if_pos h1] at h
      cases h
    · rw [if_neg h1] at h
      by_cases h2 : font.shape config.cjk_exclam_question (some "KOR") ≠
          font.shape config.cjk_exclam_question (some "JAN")
      · rw [if_pos h2] at h
        cases h
      · rw [if_neg h2] at h
        obtain ⟨p, hdis, hp⟩ := except_bind_ok _ _ _ h
        dsimp only at hp
        by_cases h3 : p.1 ∩ p.2 ≠ ∅
        · rw [if_pos h3] at hp
          cases hp
        · rw [if_neg h3] at hp
          obtain ⟨hg, hb⟩ := ok_some_of_check _ _ hp
          subst hg
          exact assert_disjoint_spec _ hb

theorem get_colon_semicolon_invariant (font : FontModel) (config : Config)
    (cache : Option GlyphTypeCache) (t : GlyphSetTrio)
    (h : get_colon_semicolon font config cache = .ok t) :
    (t.left ∩ t.middle = ∅ ∧ t.left ∩ t.right = ∅ ∧ t.middle ∩ t.right = ∅) ∧
    (font.is_vertical = true →
      (∀ g ∈ t.left, cache_class cache g = some .L) ∧
      (∀ g ∈ t.right, cache_class cache g = some .R) ∧
      (∀ g ∈ t.middle, cache_class cache g = some .M ∨
        g ∉ font.shape_horizontal config.cjk_column_semicolon (some "JAN"))) := by
  unfold get_colon_semicolon at h
  cases hm : config.is_colon_semicolon_middle with
  | some b =>
    rw [hm] at h
    dsimp only at h
    constructor
    · exact colon_finish_disjoint (fun _ => none) _ _ _ _ _ _ _
        (strictlyClassifiedBy_empty_trio _) (fun _ _ => rfl) h
    · intro hv
      exact colon_finish_vertical (cache_class cache) _ _ _ _ _ _ _ hv
        (strictlyClassifiedBy_empty_trio _) h
  | none =>
    rw [hm] at h
    obtain ⟨s, hs, hks⟩ := except_bind_ok _ _ _ h
    obtain ⟨u, hu, hfu⟩ := except_bind_ok _ _ _ hs
    dsimp only at hfu
    have h1 := add_from_cache_classified cache GlyphSetTrio.empty
      (font.shape config.cjk_column_semicolon (some "JAN"))
      (strictlyClassifiedBy_empty_trio _)
    have h2 := add_from_cache_classified cache
      (add_from_cache cache GlyphSetTrio.empty
        (font.shape config.cjk_column_semicolon (some "JAN"))).1
      (font.shape config.cjk_column_semicolon (some "ZHS")) h1.1
    split at hfu
    · cases hfu
      dsimp only at hks
      cases hks
      refine ⟨h2.1.weaken.disjoint_triple, fun _ => ?_⟩
      exact ⟨h2.1.1, h2.1.2.1, fun g hg => Or.inl (h2.1.2.2 g hg)⟩
    · obtain ⟨p, hdis, hgp⟩ := except_bind_ok _ _ _ hfu
      cases hgp
      dsimp only at hks
      have hsub := colon_disambiguate_subset font config _ _ p hdis
      have hja : ∀ g ∈ p.1, cache_class cache g = none :=
        fun g hg => h1.2 g (hsub.1 hg)
      constructor
      · exact colon_finish_disjoint (cache_class cache) _ _ _ _ _ _ _ h2.1 hja hks
      · intro hv
        exact colon_finish_vertical (cache_class cache) _ _ _ _ _ _ _ hv h2.1 hks

end GlyphSetTrio

/-- Splitting a successful `Option.bind`. -/
theorem option_bind_some {α β : Type} (o : Option α) (f : α → Option β) (b : β)
    (h : o.bind f = some b) : ∃ a, o = some a ∧ f a = some b := by
  cases o with
  | none => cases h
  | some a => exact ⟨a, rfl, h⟩

/-- What a successful `build_lookup` returns: the two recorded lookup
indices, and the lookup list grown by the class-pair, single-glyph and
chain-context lookups (the chain referencing the single-glyph lookup's
assigned index). -/
theorem build_lookup_spec (t : GlyphSetTrio) (font : FontModel)
    (lookups : List Lookup) (r : List ℕ × List Lookup) (em : ℕ)
    (hem : font.fullwidth_advance = some em)
    (hb : t.build_lookup font lookups = some r) :
    r.1 = [lookups.length, lookups.length + 2] ∧
    r.2 = lookups ++
      [Lookup.pairPos (glyph_names_sorted font t.left)
        (left_half_value font.is_vertical (half_em em))
        (glyph_names_sorted font t.left ++ glyph_names_sorted font t.middle ++
          glyph_names_sorted font t.right),
       Lookup.singlePos ((glyph_names_sorted font t.right).map fun g =>
         (g, right_half_value font.is_vertical (half_em em))),
       Lookup.chainContext
         [glyph_names_sorted font t.middle ++ glyph_names_sorted font t.right]
         [glyph_names_sorted font t.right] [] [[lookups.length + 1]]] := by
  unfold GlyphSetTrio.build_lookup at hb
  rw [hem] at hb
  dsimp only at hb
  by_cases hz : half_em em = 0
  · rw [if_pos hz] at hb
    cases hb
  · rw [if_neg hz] at hb
    cases hb
    constructor <;> simp [List.length_append]

/-- `add_to_table` rewrites the script records by appending the new feature
index and appends exactly one feature record, touching nothing else of the
script list. -/
theorem add_to_table_scripts (t : GlyphSetTrio) (font : FontModel)
    (table table' : OtTable) (feature_tag : String)
    (h : t.add_to_table font table feature_tag = some table') :
    table'.script_records = table.script_records.map (fun sr =>
      { sr with
        default_lang_sys := sr.default_lang_sys.map fun ls =>
          { ls with feature_index :=
              ls.feature_index ++ [table.feature_records.length] },
        lang_sys_records := sr.lang_sys_records.map fun lr =>
          { lr with lang_sys :=
            { lr.lang_sys with feature_index :=
                lr.lang_sys.feature_index ++ [table.feature_records.length] } } }) ∧
    table'.feature_records.length = table.feature_records.length + 1 := by
  unfold GlyphSetTrio.add_to_table at h
  by_cases h0 : ¬ t.can_add_to_table = true
  · rw [if_pos h0] at h
    cases h
  · rw [if_neg h0] at h
    by_cases h1 : ¬ t.assert_glyphs_are_disjoint = true
    · rw [if_pos h1] at h
      cases h
    · rw [if_neg h1] at h
      by_cases h2 : has_ottable_feature table feature_tag = true
      · rw [if_pos h2] at h
        cases h
      · rw [if_neg h2] at h
        obtain ⟨r, hb, hk⟩ := option_bind_some _ _ _ h
        dsimp only at hk
        cases hk
        exact ⟨rfl, by simp⟩

/-- The shape of a GPOS table whose script list is exactly the fresh `DFLT`
record with every feature index registered in its default language system. -/
def DfltShape (tbl : OtTable) : Prop :=
  tbl.script_records =
    [⟨"DFLT", some ⟨0xFFFF, List.range tbl.feature_records.length⟩, []⟩]

theorem add_to_table_dflt (t : GlyphSetTrio) (font : FontModel)
    (table table' : OtTable) (feature_tag : String)
    (h : t.add_to_table font table feature_tag = some table')
    (hd : DfltShape table) : DfltShape table' := by
  obtain ⟨hscripts, hlen⟩ := add_to_table_scripts t font table table' feature_tag h
  unfold DfltShape at hd ⊢
  rw [hscripts, hd, hlen]
  simp [List.range_succ]

/-! ### Collection-grouping lemmas (towards C4) -/

theorem eastasianspacing_empty_unite (s : EastAsianSpacing) :
    EastAsianSpacing.empty.unite s = s := by
  cases s with
  | mk h v =>
    cases h
    cases v
    simp [EastAsianSpacing.unite, GlyphSetTrio.unite, EastAsianSpacing.empty,
      GlyphSetTrio.empty]

theorem union_spacing_of_append (faces : List FaceModel) (ids : List ℕ) (i : ℕ) :
    union_spacing_of faces (ids ++ [i]) =
      (union_spacing_of faces ids).unite
        (((faces.get? i).map FaceModel.derived).getD EastAsianSpacing.empty) := by
  unfold union_spacing_of
  rw [List.foldl_append]
  rfl

theorem union_spacing_of_single (faces : List FaceModel) (i : ℕ) (f : FaceModel)
    (hf : faces.get? i = some f) :
    union_spacing_of faces [i] = f.derived := by
  show EastAsianSpacing.empty.unite
      (((faces.get? i).map FaceModel.derived).getD EastAsianSpacing.empty) = f.derived
  rw [hf]
  exact eastasianspacing_empty_unite f.derived

/-- Invariant of the `spacing_by_offset` loop after the first `n` faces:
offset keys are distinct, each entry's spacing is the per-slot union of its
recorded faces' derived spacings and those faces all report the entry's
offset, and every processed face is recorded in the entry of its offset. -/
def GroupsInv (faces : List FaceModel) (n : ℕ) (groups : List SpacingEntry) : Prop :=
  (groups.map SpacingEntry.offset_key).Nodup ∧
  (∀ e ∈ groups, e.spacing = union_spacing_of faces e.face_indices ∧
    ∀ i ∈ e.face_indices, ∃ f, faces.get? i = some f ∧
      f.gpos_offset = e.offset_key) ∧
  (∀ i f, i < n → faces.get? i = some f →
    ∃ e ∈ groups, i ∈ e.face_indices ∧ e.offset_key = f.gpos_offset)

theorem update_groups_inv (faces : List FaceModel) (n : ℕ)
    (groups : List SpacingEntry) (f : FaceModel)
    (hface : faces.get? n = some f) (hinv : GroupsInv faces n groups) :
    GroupsInv faces (n + 1) (update_groups groups f.gpos_offset f.derived n) := by
  obtain ⟨hkeys, hent, hcov⟩ := hinv
  unfold update_groups
  by_cases hany : groups.any (fun e => e.offset_key = f.gpos_offset) = true
  · rw [if_pos hany]
    obtain ⟨e0, he0, he0k⟩ := List.any_eq_true.mp hany
    rw [decide_eq_true_eq] at he0k
    refine ⟨?_, ?_, ?_⟩
    · have hsame : (groups.map (fun e =>
          if e.offset_key = f.gpos_offset then
            { e with spacing := e.spacing.unite f.derived, face_indices := e.face_indices ++ [n] }
          else e)).map SpacingEntry.offset_key =
          groups.map SpacingEntry.offset_key := by
        rw [List.map_map]
        apply List.map_congr_left
        intro e _
        by_cases he : e.offset_key = f.gpos_offset <;> simp [he]
      rw [hsame]
      exact hkeys
    · intro e' he'
      obtain ⟨e, he, rfl⟩ := List.mem_map.mp he'
      by_cases he2 : e.offset_key = f.gpos_offset
      · rw [if_pos he2]
        refine ⟨?_, ?_⟩
        · show e.spacing.unite f.derived = _
          rw [(hent e he).1, union_spacing_of_append, hface]
          rfl
        · intro i hi
          rcases List.mem_append.mp hi with hi | hi
          · exact (hent e he).2 i hi
          · rw [List.mem_singleton] at hi
            subst hi
            exact ⟨f, hface, he2.symm⟩
      · rw [if_neg he2]
        exact hent e he
    · intro i fi hi hfi
      rcases Nat.lt_succ_iff_lt_or_eq.mp hi with hi | hi
      · obtain ⟨e, he, hie, hke⟩ := hcov i fi hi hfi
        by_cases he2 : e.offset_key = f.gpos_offset
        · refine ⟨{ e with spacing := e.spacing.unite f.derived, face_indices := e.face_indices ++ [n] },
            List.mem_map.mpr ⟨e, he, by rw [if_pos he2]⟩, ?_, hke⟩
          exact List.mem_append.mpr (Or.inl hie)
        · exact ⟨e, List.mem_map.mpr ⟨e, he, by rw [if_neg he2]⟩, hie, hke⟩
      · subst hi
        rw [hface] at hfi
        cases hfi
        refine ⟨{ e0 with spacing := e0.spacing.unite f.derived, face_indices := e0.face_indices ++ [i] },
          List.mem_map.mpr ⟨e0, he0, by rw [if_pos he0k]⟩, ?_, he0k⟩
        simp
  · rw [if_neg hany]
    have hnot : ∀ e ∈ groups, e.offset_key ≠ f.gpos_offset := by
      intro e he heq
      exact hany (List.any_eq_true.mpr ⟨e, he, by simp [heq]⟩)
    refine ⟨?_, ?_, ?_⟩
    · rw [List.map_append]
      rw [List.nodup_append]
      refine ⟨hkeys, List.nodup_singleton _, ?_⟩
      intro a ha hb
      simp only [List.map_cons, List.map_nil, List.mem_singleton] at hb
      obtain ⟨e, he, hek⟩ := List.mem_map.mp ha
      exact hnot e he (hek.trans hb)
    · intro e' he'
      rcases List.mem_append.mp he' with he' | he'
      · exact hent e' he'
      · rw [List.mem_singleton] at he'
        subst he'
        refine ⟨(union_spacing_of_single faces n f hface).symm, ?_⟩
        intro i hi
        rw [List.mem_singleton] at hi
        subst hi
        exact ⟨f, hface, rfl⟩
    · intro i fi hi hfi
      rcases Nat.lt_succ_iff_lt_or_eq.mp hi with hi | hi
      · obtain ⟨e, he, hie, hke⟩ := hcov i fi hi hfi
        exact ⟨e, List.mem_append.mpr (Or.inl he), hie, hke⟩
      · subst hi
        rw [hface] at hfi
        cases hfi
        exact ⟨⟨f.gpos_offset, f.derived, [i]⟩,
          List.mem_append.mpr (Or.inr (List.mem_singleton.mpr rfl)),
          List.mem_singleton.mpr rfl, rfl⟩

theorem fold_groups_inv (faces : List FaceModel) (l : List FaceModel) :
    ∀ (n : ℕ) (g0 groups : List SpacingEntry),
      (∀ k, k < l.length → faces.get? (n + k) = l.get? k) →
      GroupsInv faces n g0 →
      ((l.enumFrom n).foldlM (fun groups fi =>
          if fi.2.has_feature then none
          else some (update_groups groups fi.2.gpos_offset fi.2.derived fi.1))
        g0 = some groups) →
      GroupsInv faces (n + l.length) groups := by
  induction l with
  | nil =>
    intro n g0 groups _ hinv h
    simp only [List.enumFrom_nil, List.foldlM_nil] at h
    cases h
    simpa using hinv
  | cons x xs ih =>
    intro n g0 groups hk hinv h
    have he : (x :: xs).enumFrom n = (n, x) :: xs.enumFrom (n + 1) := rfl
    rw [he, List.foldlM_cons] at h
    by_cases hfeat : x.has_feature = true
    · rw [if_pos hfeat] at h
      cases h
    · rw [if_neg hfeat] at h
      simp only [Option.bind_eq_bind, Option.some_bind] at h
      have hface : faces.get? n = some x := by
        have := hk 0 (by simp)
        simpa using this
      have hstep := update_groups_inv faces n g0 x hface hinv
      have hk2 : ∀ k, k < xs.length → faces.get? (n + 1 + k) = xs.get? k := by
        intro k hklt
        have := hk (k + 1) (by simpa using Nat.succ_lt_succ hklt)
        rw [show n + (k + 1) = n + 1 + k by omega] at this
        simpa using this
      have := ih (n + 1) _ groups hk2 hstep h
      rw [show n + 1 + xs.length = n + (x :: xs).length by simp; omega] at this
      exact this

/-! ### Concrete fixtures for witnesses and counterexamples -/

/-- A concrete horizontal font whose shaping oracle gives the Traditional-
Chinese probe a distinct period/comma glyph and the Simplified-Chinese probe
distinct colon/semicolon and exclamation/question glyphs. -/
def wfont : FontModel :=
  { is_vertical := false
    fullwidth_advance := some 1000
    shape := fun text lang =>
      if lang = some "ZHT" then
        (if text = {13} then {213} else text.image (fun c => c + 100))
      else if lang = some "ZHS" then
        (if text = {14} then {214}
         else if text = {15} then {215}
         else text.image (fun c => c + 100))
      else text.image (fun c => c + 100)
    shape_horizontal := fun text _ => text.image (fun c => c + 100)
    glyph_name := fun g => toString g
    gsub := none
    gpos := none }

/-- A concrete configuration with one code point per group. -/
def wconfig : Config :=
  { language := none
    cjk_opening := {10}
    cjk_closing := {11}
    quotes_opening := ∅
    quotes_closing := ∅
    cjk_middle := {12}
    cjk_period_comma := {13}
    cjk_column_semicolon := {14}
    cjk_exclam_question := {15}
    is_colon_semicolon_middle := none }

/-- A concrete vertical font shaping every probe to glyph 5, whose horizontal
counterpart shapes to nothing. -/
def vfont : FontModel :=
  { is_vertical := true
    fullwidth_advance := some 1000
    shape := fun _ _ => {5}
    shape_horizontal := fun _ _ => ∅
    glyph_name := fun g => toString g
    gsub := none
    gpos := none }

/-- A cache that already classified glyph 5 as `L`. -/
def vcache : GlyphTypeCache := ⟨[(5, .L)]⟩

/-! ### The claims -/

/-- C1: every trio produced by classification — each per-group result and the
merged result of `add_glyphs` — has pairwise disjoint `left`, `middle` and
`right` sets; after the per-group results are united, the disjointness check
is re-validated and a violation is a fatal assertion failure (the `Except`
error of the model). -/
theorem trio_disjointness (self t g1 g2 t3 g4 : GlyphSetTrio) (font : FontModel)
    (config : Config) (cache c' : Option GlyphTypeCache) (em : ℕ)
    (hfa : font.fullwidth_advance = some em) :
    (GlyphSetTrio.add_glyphs self font (some config) cache = .ok (t, c') →
      t.left ∩ t.middle = ∅ ∧ t.left ∩ t.right = ∅ ∧ t.middle ∩ t.right = ∅) ∧
    (GlyphSetTrio.get_opening_closing font config = .ok g1 →
      g1.left ∩ g1.middle = ∅ ∧ g1.left ∩ g1.right = ∅ ∧ g1.middle ∩ g1.right = ∅) ∧
    (GlyphSetTrio.get_period_comma font config = .ok (some g2) →
      g2.left ∩ g2.middle = ∅ ∧ g2.left ∩ g2.right = ∅ ∧ g2.middle ∩ g2.right = ∅) ∧
    (GlyphSetTrio.get_colon_semicolon font config cache = .ok t3 →
      t3.left ∩ t3.middle = ∅ ∧ t3.left ∩ t3.right = ∅ ∧ t3.middle ∩ t3.right = ∅) ∧
    (GlyphSetTrio.get_exclam_question font config = .ok (some g4) →
      g4.left ∩ g4.middle = ∅ ∧ g4.left ∩ g4.right = ∅ ∧ g4.middle ∩ g4.right = ∅) := by
  refine ⟨?_, GlyphSetTrio.get_opening_closing_disjoint font config g1,
    GlyphSetTrio.get_period_comma_disjoint font config g2,
    fun h => (GlyphSetTrio.get_colon_semicolon_invariant font config cache t3 h).1,
    GlyphSetTrio.get_exclam_question_disjoint font config g4⟩
  intro h
  unfold GlyphSetTrio.add_glyphs at h
  rw [hfa] at h
  dsimp only at h
  obtain ⟨r1, h1, h⟩ := except_bind_ok _ _ _ h
  obtain ⟨r2, h2, h⟩ := except_bind_ok _ _ _ h
  obtain ⟨r3, h3, h⟩ := except_bind_ok _ _ _ h
  obtain ⟨r4, h4, h⟩ := except_bind_ok _ _ _ h
  cases hc : ((((self.unite (some r1)).unite r2).unite (some r3)).unite r4).add_to_cache
      cache with
  | none => rw [hc] at h; cases h
  | some c =>
    rw [hc] at h
    dsimp only at h
    by_cases hb : ((((self.unite (some r1)).unite r2).unite
        (some r3)).unite r4).assert_glyphs_are_disjoint = true
    · rw [if_pos hb] at h
      cases h
      exact assert_disjoint_spec _ hb
    · rw [if_neg hb] at h
      cases h

/-- Witness for C1 at a concrete font and configuration: the
opening/closing group of `wfont`/`wconfig` classifies and the resulting sets
are disjoint. -/
theorem trio_disjointness_witness :
    ({111} : Finset ℕ) ∩ {112} = ∅ ∧ ({111} : Finset ℕ) ∩ {110} = ∅ ∧
      ({112} : Finset ℕ) ∩ {110} = ∅ :=
  (trio_disjointness GlyphSetTrio.empty GlyphSetTrio.empty ⟨{111}, {110}, {112}⟩
      GlyphSetTrio.empty GlyphSetTrio.empty GlyphSetTrio.empty wfont wconfig
      none none 1000 rfl).2.1 (by decide)

/-- C2: once the per-root cache has recorded a class for a glyph ID, a later
`GlyphTypeCache.add_glyphs` touching the same glyph succeeds only when it
records the same class (a mismatch is a fatal assertion, i.e. `none`), and a
cache hit returns exactly the recorded class. -/
theorem cache_class_consistent (c c' : GlyphTypeCache) (glyphs : Finset GlyphId)
    (v v0 : GlyphClass) (g : GlyphId)
    (hadd : c.add_glyphs glyphs v = some c')
    (hg : g ∈ glyphs) (hprev : c.type_from_glyph_id g = some v0) :
    v0 = v ∧ c'.type_from_glyph_id g = some v :=
  GlyphTypeCache.foldl_add_mem (sortedIds glyphs) c c' v v0 g
    (sortedIds_nodup glyphs) ((mem_sortedIds glyphs g).mpr hg) hadd hprev

/-- Witness for C2: glyph 1 is cached as `L`; re-adding {1, 2} as `L`
succeeds and the lookup still returns `L`. -/
theorem cache_class_consistent_witness :
    GlyphClass.L = GlyphClass.L ∧
      GlyphTypeCache.type_from_glyph_id ⟨[(2, .L), (1, .L), (1, .L)]⟩ 1 =
        some GlyphClass.L :=
  cache_class_consistent ⟨[(1, .L)]⟩ ⟨[(2, .L), (1, .L), (1, .L)]⟩ {1, 2}
    .L .L 1 (by decide) (by decide) (by decide)

/-- C7 (amended): in vertical colon/semicolon classification, every glyph of
the returned `left` (resp. `right`) slot was already recorded as `L` (resp.
`R`) in the per-root cache — fresh classification never adds to `left` in
vertical flow, but cached `L` glyphs may — and every `middle` glyph is either
cached as `M` or differs from the glyph the same code points shape to in the
font's horizontal mode (no vertical alternate implies no trim for glyphs the
cache did not resolve). -/
theorem vertical_colon_classes (font : FontModel) (config : Config)
    (cache : Option GlyphTypeCache) (t : GlyphSetTrio)
    (hv : font.is_vertical = true)
    (h : GlyphSetTrio.get_colon_semicolon font config cache = .ok t) :
    (∀ g ∈ t.left, cache_class cache g = some GlyphClass.L) ∧
    (∀ g ∈ t.right, cache_class cache g = some GlyphClass.R) ∧
    (∀ g ∈ t.middle, cache_class cache g = some GlyphClass.M ∨
      g ∉ font.shape_horizontal config.cjk_column_semicolon (some "JAN")) :=
  (GlyphSetTrio.get_colon_semicolon_invariant font config cache t h).2 hv

/-- Witness for C7's amended statement at the concrete vertical font. -/
theorem vertical_colon_classes_witness :
    (∀ g ∈ ({5} : Finset ℕ), cache_class (some vcache) g = some GlyphClass.L) ∧
    (∀ g ∈ (∅ : Finset ℕ), cache_class (some vcache) g = some GlyphClass.R) ∧
    (∀ g ∈ (∅ : Finset ℕ), cache_class (some vcache) g = some GlyphClass.M ∨
      g ∉ (∅ : Finset ℕ)) :=
  vertical_colon_classes vfont wconfig (some vcache) ⟨{5}, ∅, ∅⟩ rfl (by decide)

/-- C8: the exclamation/question group contributes nothing in vertical flow,
and in horizontal flow only the `left` slot can be non-empty: it holds the
Simplified-Chinese-shaped glyph set (exactly that set whenever the probes
differ), with the Japanese-shaped set discarded. -/
theorem exclam_question_mapping (font : FontModel) (config : Config)
    (r : GlyphSetTrio) :
    (font.is_vertical = true →
      GlyphSetTrio.get_exclam_question font config = .ok none) ∧
    (GlyphSetTrio.get_exclam_question font config = .ok (some r) →
      r.right = ∅ ∧ r.middle = ∅ ∧
      r.left ⊆ font.shape config.cjk_exclam_question (some "ZHS") ∧
      (font.shape config.cjk_exclam_question (some "JAN") ≠
          font.shape config.cjk_exclam_question (some "ZHS") →
        r.left = font.shape config.cjk_exclam_question (some "ZHS"))) := by
  constructor
  · intro hv
    unfold GlyphSetTrio.get_exclam_question
    rw [if_pos hv]
  · intro h
    unfold GlyphSetTrio.get_exclam_question at h
    by_cases h0 : font.is_vertical = true
    · rw [if_pos h0] at h
      exact absurd h (by simp)
    · rw [if_neg h0] at h
      by_cases h1 : font.shape config.cjk_exclam_question (some "ZHT") ≠
          font.shape config.cjk_exclam_question (some "JAN")
      · rw [if_pos h1] at h
        cases h
      · rw [if_neg h1] at h
        by_cases h2 : font.shape config.cjk_exclam_question (some "KOR") ≠
            font.shape config.cjk_exclam_question (some "JAN")
        · rw [if_pos h2] at h
          cases h
        · rw [if_neg h2] at h
          by_cases h3 : font.shape config.cjk_exclam_question (some "JAN") =
              font.shape config.cjk_exclam_question (some "ZHS")
          · rw [if_pos h3] at h
            cases hl : config.language with
            | none =>
              rw [hl] at h
              cases h
            | some lang =>
              rw [hl] at h
              dsimp only at h
              by_cases hlang : lang = "ZHS"
              · rw [if_pos hlang] at h
                obtain ⟨p, hpe, hp⟩ := except_bind_ok _ _ _ h
                cases hpe
                dsimp only at hp
                by_cases h4 : (∅ : Finset GlyphId) ∩
                    font.shape config.cjk_exclam_question (some "ZHS") ≠ ∅
                · rw [if_pos h4] at hp
                  cases hp
                · rw [if_neg h4] at hp
                  obtain ⟨hg, hb⟩ := GlyphSetTrio.ok_some_of_check _ _ hp
                  subst hg
                  exact ⟨rfl, rfl, fun _ hg => hg, fun hne => absurd h3 hne⟩
              · rw [if_neg hlang] at h
                obtain ⟨p, hpe, hp⟩ := except_bind_ok _ _ _ h
                cases hpe
                dsimp only at hp
                by_cases h4 : font.shape config.cjk_exclam_question (some "JAN") ∩
                    (∅ : Finset GlyphId) ≠ ∅
                · rw [if_pos h4] at hp
                  cases hp
                · rw [if_neg h4] at hp
                  obtain ⟨hg, hb⟩ := GlyphSetTrio.ok_some_of_check _ _ hp
                  subst hg
                  exact ⟨rfl, rfl, Finset.empty_subset _, fun hne => absurd h3 hne⟩
          · rw [if_neg h3] at h
            obtain ⟨p, hpe, hp⟩ := except_bind_ok _ _ _ h
            cases hpe
            dsimp only at hp
            by_cases h4 : font.shape config.cjk_exclam_question (some "JAN") ∩
                font.shape config.cjk_exclam_question (some "ZHS") ≠ ∅
            · rw [if_pos h4] at hp
              cases hp
            · rw [if_neg h4] at hp
              obtain ⟨hg, hb⟩ := GlyphSetTrio.ok_some_of_check _ _ hp
              subst hg
              exact ⟨rfl, rfl, fun _ hg => hg, fun _ => rfl⟩

/-- Witness for C8: a horizontal font whose Japanese and Simplified-Chinese
probes differ maps the Simplified-Chinese set into the `left` slot. -/
theorem exclam_question_mapping_witness :
    (∅ : Finset ℕ) = ∅ ∧ (∅ : Finset ℕ) = ∅ ∧
      ({215} : Finset ℕ) ⊆ wfont.shape wconfig.cjk_exclam_question (some "ZHS") ∧
      (wfont.shape wconfig.cjk_exclam_question (some "JAN") ≠
          wfont.shape wconfig.cjk_exclam_question (some "ZHS") →
        ({215} : Finset ℕ) = wfont.shape wconfig.cjk_exclam_question (some "ZHS")) :=
  (exclam_question_mapping wfont wconfig ⟨{215}, ∅, ∅⟩).2 (by decide)

/-- C6: when the Japanese and Traditional-Chinese period/comma probes return
identical glyph sets, a declared language is mandatory: `ZHT`/`ZHH` keeps the
Traditional-Chinese set as `middle` and empties the Japanese set, any other
declared language empties the Traditional-Chinese set, and no declared
language is a fatal language-required error whose diagnostic enumerates the
font's script/language tags (non-empty whenever the font has any). -/
theorem period_comma_require_language (font : FontModel) (config : Config)
    (hne : config.cjk_period_comma ≠ ∅)
    (heq : font.shape config.cjk_period_comma (some "JAN") =
      font.shape config.cjk_period_comma (some "ZHT"))
    (hzhs : font.shape config.cjk_period_comma (some "ZHS") =
      font.shape config.cjk_period_comma (some "JAN"))
    (hkor : font.shape config.cjk_period_comma (some "KOR") =
      font.shape config.cjk_period_comma (some "JAN")) :
    (config.language = none →
      GlyphSetTrio.get_period_comma font config =
        .error (.requireLanguage (require_language_tags font)) ∧
      (∀ tag ∈ script_and_langsys_tags font, tag ∈ require_language_tags font) ∧
      (script_and_langsys_tags font ≠ [] → require_language_tags font ≠ [])) ∧
    ((config.language = some "ZHT" ∨ config.language = some "ZHH") →
      GlyphSetTrio.get_period_comma font config =
        .ok (some ⟨∅, ∅, font.shape config.cjk_period_comma (some "ZHT")⟩)) ∧
    (∀ lang, config.language = some lang → lang ≠ "ZHT" → lang ≠ "ZHH" →
      GlyphSetTrio.get_period_comma font config =
        .ok (some ⟨font.shape config.cjk_period_comma (some "JAN"), ∅, ∅⟩)) := by
  refine ⟨?_, ?_, ?_⟩
  · intro hl
    refine ⟨?_, fun tag htag => (mem_require_language_tags font tag).mpr htag, ?_⟩
    · unfold GlyphSetTrio.get_period_comma
      rw [if_neg hne, if_neg (not_not_intro hzhs), if_neg (not_not_intro hkor),
        if_pos heq, hl]
      rfl
    · intro hne2
      obtain ⟨x, hx⟩ := List.exists_mem_of_ne_nil _ hne2
      exact List.ne_nil_of_mem ((mem_require_language_tags font x).mpr hx)
  · intro hl
    unfold GlyphSetTrio.get_period_comma
    rw [if_neg hne, if_neg (not_not_intro hzhs), if_neg (not_not_intro hkor),
      if_pos heq]
    rcases hl with hl | hl <;> rw [hl] <;> dsimp only
    · rw [if_pos (Or.inl rfl)]
      simp only [Except.bind]
      rw [if_neg (by simp), if_pos (by simp [GlyphSetTrio.assert_glyphs_are_disjoint])]
    · rw [if_pos (Or.inr rfl)]
      simp only [Except.bind]
      rw [if_neg (by simp), if_pos (by simp [GlyphSetTrio.assert_glyphs_are_disjoint])]
  · intro lang hl hne1 hne2
    unfold GlyphSetTrio.get_period_comma
    rw [if_neg hne, if_neg (not_not_intro hzhs), if_neg (not_not_intro hkor),
      if_pos heq, hl]
    dsimp only
    rw [if_neg (by simp [hne1, hne2])]
    simp only [Except.bind]
    rw [if_neg (by simp), if_pos (by simp [GlyphSetTrio.assert_glyphs_are_disjoint])]

/-- A GSUB table carrying one `hani` script with one explicit language
system, used to exercise the language-required diagnostic. -/
def wgsub : OtTable :=
  { script_records := [⟨"hani", none, [⟨"JAN ", ⟨0xFFFF, []⟩⟩]⟩]
    feature_records := []
    lookups := [] }

/-- A font shaping every language identically (period/comma ambiguous). -/
def wfont_eq : FontModel :=
  { is_vertical := false
    fullwidth_advance := some 1000
    shape := fun text _ => text.image (fun c => c + 100)
    shape_horizontal := fun text _ => text.image (fun c => c + 100)
    glyph_name := fun g => toString g
    gsub := some wgsub
    gpos := none }

/-- Witness for C6: `wfont_eq` with no declared language fails with the
language-required error, and the diagnostic lists the font's tags. -/
theorem period_comma_require_language_witness :
    GlyphSetTrio.get_period_comma wfont_eq wconfig =
      .error (.requireLanguage (require_language_tags wfont_eq)) ∧
    (∀ tag ∈ script_and_langsys_tags wfont_eq, tag ∈ require_language_tags wfont_eq) ∧
    (script_and_langsys_tags wfont_eq ≠ [] → require_language_tags wfont_eq ≠ []) :=
  (period_comma_require_language wfont_eq wconfig (by decide) rfl rfl rfl).1 rfl

/-- C5: the synthesizer computes `half_em em = ⌊em / 2⌋` (1000 ↦ 500,
999 ↦ 499, and the half must be positive), and the value records are
consistent with that floor: left glyphs get the advance in the writing
direction shortened by the half, right glyphs get both a placement offset of
magnitude the half and an advance shortened by the half (X axis for
horizontal, Y axis for vertical). -/
theorem half_advance_values (font : FontModel) (t : GlyphSetTrio)
    (lookups : List Lookup) (r : List ℕ × List Lookup) (em : ℕ)
    (hem : font.fullwidth_advance = some em)
    (hb : t.build_lookup font lookups = some r) :
    half_em 1000 = 500 ∧ half_em 999 = 499 ∧ 0 < half_em em ∧
    r.2 = lookups ++
      [Lookup.pairPos (glyph_names_sorted font t.left)
        (left_half_value font.is_vertical (half_em em))
        (glyph_names_sorted font t.left ++ glyph_names_sorted font t.middle ++
          glyph_names_sorted font t.right),
       Lookup.singlePos ((glyph_names_sorted font t.right).map fun g =>
         (g, right_half_value font.is_vertical (half_em em))),
       Lookup.chainContext
         [glyph_names_sorted font t.middle ++ glyph_names_sorted font t.right]
         [glyph_names_sorted font t.right] [] [[lookups.length + 1]]] ∧
    r.1 = [lookups.length, lookups.length + 2] ∧
    left_half_value false (half_em em) = { xAdvance := -(half_em em : ℤ) } ∧
    right_half_value false (half_em em) =
      { xPlacement := -(half_em em : ℤ), xAdvance := -(half_em em : ℤ) } ∧
    left_half_value true (half_em em) = { yAdvance := -(half_em em : ℤ) } ∧
    right_half_value true (half_em em) =
      { yPlacement := (half_em em : ℤ), yAdvance := -(half_em em : ℤ) } := by
  unfold GlyphSetTrio.build_lookup at hb
  rw [hem] at hb
  dsimp only at hb
  by_cases hz : half_em em = 0
  · rw [if_pos hz] at hb
    cases hb
  · rw [if_neg hz] at hb
    cases hb
    refine ⟨rfl, rfl, Nat.pos_of_ne_zero hz, ?_, ?_, rfl, rfl, rfl, rfl⟩ <;>
      simp [List.length_append]

/-- The odd-em font used for the C5 witness. -/
def wfont999 : FontModel := { wfont with fullwidth_advance := some 999 }

/-- A minimal trio with one left and one right glyph. -/
def wtrio : GlyphSetTrio := ⟨{1}, {2}, ∅⟩

/-- The lookups `build_lookup` produces for `wfont999`/`wtrio`. -/
def w999 : List ℕ × List Lookup :=
  ([0, 2],
   [Lookup.pairPos ["1"] { xAdvance := -499 } ["1", "2"],
    Lookup.singlePos [("2", { xPlacement := -499, xAdvance := -499 })],
    Lookup.chainContext [["2"]] [["2"]] [] [[1]]])

/-- Witness for C5 at `em = 999`. -/
theorem half_advance_values_witness :
    half_em 1000 = 500 ∧ half_em 999 = 499 ∧ 0 < half_em 999 ∧
    w999.2 = [] ++
      [Lookup.pairPos (glyph_names_sorted wfont999 wtrio.left)
        (left_half_value wfont999.is_vertical (half_em 999))
        (glyph_names_sorted wfont999 wtrio.left ++
          glyph_names_sorted wfont999 wtrio.middle ++
          glyph_names_sorted wfont999 wtrio.right),
       Lookup.singlePos ((glyph_names_sorted wfont999 wtrio.right).map fun g =>
         (g, right_half_value wfont999.is_vertical (half_em 999))),
       Lookup.chainContext
         [glyph_names_sorted wfont999 wtrio.middle ++
           glyph_names_sorted wfont999 wtrio.right]
         [glyph_names_sorted wfont999 wtrio.right] [] [[1]]] ∧
    w999.1 = [0, 2] ∧
    left_half_value false (half_em 999) = { xAdvance := -(half_em 999 : ℤ) } ∧
    right_half_value false (half_em 999) =
      { xPlacement := -(half_em 999 : ℤ), xAdvance := -(half_em 999 : ℤ) } ∧
    left_half_value true (half_em 999) = { yAdvance := -(half_em 999 : ℤ) } ∧
    right_half_value true (half_em 999) =
      { yPlacement := (half_em 999 : ℤ), yAdvance := -(half_em 999 : ℤ) } :=
  half_advance_values wfont999 wtrio [] w999 999 rfl (by decide)

/-- C3 (amended): `add_to_table` appends exactly three lookups to the
table's lookup list — each new lookup's index equals the list's length at
its append time and the existing prefix is untouched (no renumbering) — and
appends one feature record that points at two of the three new lookup
indices: the class-pair lookup and the chain-context lookup; the
single-glyph lookup (index `length + 1`) is referenced only through the
chain-context rule.  The new feature's index is appended to every script's
default language system (when present) and to every explicit language
system of every script. -/
theorem add_to_table_structure (t : GlyphSetTrio) (font : FontModel)
    (table table' : OtTable) (feature_tag : String) (em : ℕ)
    (hem : font.fullwidth_advance = some em)
    (h : t.add_to_table font table feature_tag = some table') :
    table'.lookups = table.lookups ++
      [Lookup.pairPos (glyph_names_sorted font t.left)
        (left_half_value font.is_vertical (half_em em))
        (glyph_names_sorted font t.left ++ glyph_names_sorted font t.middle ++
          glyph_names_sorted font t.right),
       Lookup.singlePos ((glyph_names_sorted font t.right).map fun g =>
         (g, right_half_value font.is_vertical (half_em em))),
       Lookup.chainContext
         [glyph_names_sorted font t.middle ++ glyph_names_sorted font t.right]
         [glyph_names_sorted font t.right] [] [[table.lookups.length + 1]]] ∧
    table'.feature_records = table.feature_records ++
      [⟨feature_tag, [table.lookups.length, table.lookups.length + 2]⟩] ∧
    table'.script_records = table.script_records.map (fun sr =>
      { sr with
        default_lang_sys := sr.default_lang_sys.map fun ls =>
          { ls with feature_index :=
              ls.feature_index ++ [table.feature_records.length] },
        lang_sys_records := sr.lang_sys_records.map fun lr =>
          { lr with lang_sys :=
            { lr.lang_sys with feature_index :=
                lr.lang_sys.feature_index ++ [table.feature_records.length] } } }) := by
  unfold GlyphSetTrio.add_to_table at h
  by_cases h0 : ¬ t.can_add_to_table = true
  · rw [if_pos h0] at h
    cases h
  · rw [if_neg h0] at h
    by_cases h1 : ¬ t.assert_glyphs_are_disjoint = true
    · rw [if_pos h1] at h
      cases h
    · rw [if_neg h1] at h
      by_cases h2 : has_ottable_feature table feature_tag = true
      · rw [if_pos h2] at h
        cases h
      · rw [if_neg h2] at h
        obtain ⟨r, hb, hk⟩ := option_bind_some _ _ _ h
        obtain ⟨hr1, hr2⟩ := build_lookup_spec t font table.lookups r em hem hb
        dsimp only at hk
        cases hk
        exact ⟨hr2, by rw [hr1], rfl⟩

/-- The table produced by adding `wtrio` to a fresh GPOS table of `wfont`. -/
def wtable : OtTable :=
  { script_records := [⟨"DFLT", some ⟨0xFFFF, [0]⟩, []⟩]
    feature_records := [⟨"chws", [0, 2]⟩]
    lookups :=
      [Lookup.pairPos ["1"] { xAdvance := -500 } ["1", "2"],
       Lookup.singlePos [("2", { xPlacement := -500, xAdvance := -500 })],
       Lookup.chainContext [["2"]] [["2"]] [] [[1]]] }

/-- Witness for C3's amended statement at the concrete font. -/
theorem add_to_table_structure_witness :
    wtable.lookups = add_gpos_table.lookups ++
      [Lookup.pairPos (glyph_names_sorted wfont wtrio.left)
        (left_half_value wfont.is_vertical (half_em 1000))
        (glyph_names_sorted wfont wtrio.left ++
          glyph_names_sorted wfont wtrio.middle ++
          glyph_names_sorted wfont wtrio.right),
       Lookup.singlePos ((glyph_names_sorted wfont wtrio.right).map fun g =>
         (g, right_half_value wfont.is_vertical (half_em 1000))),
       Lookup.chainContext
         [glyph_names_sorted wfont wtrio.middle ++
           glyph_names_sorted wfont wtrio.right]
         [glyph_names_sorted wfont wtrio.right] [] [[1]]] ∧
    wtable.feature_records = add_gpos_table.feature_records ++
      [⟨"chws", [0, 2]⟩] ∧
    wtable.script_records = add_gpos_table.script_records.map (fun sr =>
      { sr with
        default_lang_sys := sr.default_lang_sys.map fun ls =>
          { ls with feature_index := ls.feature_index ++ [0] },
        lang_sys_records := sr.lang_sys_records.map fun lr =>
          { lr with lang_sys :=
            { lr.lang_sys with feature_index :=
                lr.lang_sys.feature_index ++ [0] } } }) :=
  add_to_table_structure wtrio wfont add_gpos_table wtable "chws" 1000 rfl (by decide)

/-- C3 counterexample: the one feature record points at the lookup indices
`[0, 2]` — two of the three appended lookups, not all three (the
single-glyph lookup at index 1 is absent from the feature). -/
theorem feature_two_lookup_indices_cex :
    (GlyphSetTrio.add_to_table wtrio wfont add_gpos_table "chws").map
      (fun tbl => tbl.feature_records.map FeatureRecord.lookup_list_index) =
      some [[0, 2]] ∧
    (1 : ℕ) ∉ ([0, 2] : List ℕ) ∧ ([0, 2] : List ℕ).length ≠ 3 := by
  decide

/-- C10: when the font has no GPOS table, a fresh one is created holding
exactly one script record tagged `DFLT` with an empty explicit language-
system list and a default language system whose required-feature index is
`0xFFFF` and whose feature list is empty; after `add_to_font`, every feature
added to such a font is registered only under the `DFLT` script's default
language system (its feature-index list is exactly the indices of the added
features). -/
theorem fresh_gpos_dflt_only (s : EastAsianSpacing) (font : FontModel)
    (vfont : Option FontModel) (table' : OtTable)
    (hgpos : font.gpos = none)
    (h : s.add_to_font font vfont = some table') :
    add_gpos_table =
      { script_records := [⟨"DFLT", some ⟨0xFFFF, []⟩, []⟩]
        feature_records := []
        lookups := [] } ∧
    table'.script_records =
      [⟨"DFLT", some ⟨0xFFFF, List.range table'.feature_records.length⟩, []⟩] := by
  refine ⟨rfl, ?_⟩
  unfold EastAsianSpacing.add_to_font at h
  by_cases h0 : ¬ s.can_add_to_font = true
  · rw [if_pos h0] at h
    cases h
  · rw [if_neg h0] at h
    by_cases h1 : font.is_vertical = true
    · rw [if_pos h1] at h
      cases h
    · rw [if_neg h1] at h
      rw [hgpos] at h
      dsimp only at h
      obtain ⟨tb1, hA, hB⟩ := option_bind_some _ _ _ h
      have hdflt : DfltShape add_gpos_table := by
        unfold DfltShape add_gpos_table create_script_record
        simp
      have hd1 : DfltShape tb1 := by
        by_cases hh : s.horizontal.can_add_to_table = true
        · rw [if_pos hh] at hA
          exact add_to_table_dflt _ _ _ _ _ hA hdflt
        · rw [if_neg hh] at hA
          cases hA
          exact hdflt
      cases vfont with
      | none =>
        cases hB
        exact hd1
      | some vf =>
        dsimp only at hB
        by_cases hv : s.vertical.can_add_to_table = true
        · rw [if_pos hv] at hB
          exact add_to_table_dflt _ _ _ _ _ hB hd1
        · rw [if_neg hv] at hB
          cases hB
          exact hd1

/-- The spacing used for the C10 witness. -/
def wspacing : EastAsianSpacing := ⟨wtrio, GlyphSetTrio.empty⟩

/-- Witness for C10: adding `wspacing` to the GPOS-less `wfont` creates the
fresh `DFLT`-only table and registers the one feature there. -/
theorem fresh_gpos_dflt_only_witness :
    add_gpos_table =
      { script_records := [⟨"DFLT", some ⟨0xFFFF, []⟩, []⟩]
        feature_records := []
        lookups := [] } ∧
    wtable.script_records =
      [⟨"DFLT", some ⟨0xFFFF, List.range wtable.feature_records.length⟩, []⟩] :=
  fresh_gpos_dflt_only wspacing wfont none wtable rfl (by decide)

/-- C9: classification plus synthesis is deterministic: two runs over fonts
with equal attributes and extensionally equal shaping, horizontal-shaping
and glyph-naming collaborators produce identical classification and
synthesis results (there is no built-in randomness), and the glyph order
fed to the lookup builders is the fixed ascending order of the glyph IDs. -/
theorem pipeline_deterministic (f1 f2 : FontModel) (config : Option Config)
    (cache : Option GlyphTypeCache) (self t : GlyphSetTrio)
    (lookups : List Lookup) (table : OtTable) (feature_tag : String)
    (hv : f1.is_vertical = f2.is_vertical)
    (hfa : f1.fullwidth_advance = f2.fullwidth_advance)
    (hs : ∀ u l, f1.shape u l = f2.shape u l)
    (hsh : ∀ u l, f1.shape_horizontal u l = f2.shape_horizontal u l)
    (hn : ∀ g, f1.glyph_name g = f2.glyph_name g)
    (hgs : f1.gsub = f2.gsub) (hgp : f1.gpos = f2.gpos) :
    GlyphSetTrio.add_glyphs self f1 config cache =
      GlyphSetTrio.add_glyphs self f2 config cache ∧
    t.build_lookup f1 lookups = t.build_lookup f2 lookups ∧
    t.add_to_table f1 table feature_tag = t.add_to_table f2 table feature_tag ∧
    List.Sorted (· ≤ ·) (sortedIds t.left) ∧
    List.Sorted (· ≤ ·) (sortedIds t.right) ∧
    List.Sorted (· ≤ ·) (sortedIds t.middle) := by
  have hf : f1 = f2 := by
    cases f1
    cases f2
    simp only [FontModel.mk.injEq]
    exact ⟨hv, hfa, funext fun u => funext fun l => hs u l,
      funext fun u => funext fun l => hsh u l, funext fun g => hn g, hgs, hgp⟩
  subst hf
  exact ⟨rfl, rfl, rfl, sortedIds_sorted _, sortedIds_sorted _, sortedIds_sorted _⟩

/-- Witness for C9: two runs over the same concrete font agree, and the
concrete trio's glyph lists are sorted. -/
theorem pipeline_deterministic_witness :
    GlyphSetTrio.add_glyphs GlyphSetTrio.empty wfont (some wconfig) none =
      GlyphSetTrio.add_glyphs GlyphSetTrio.empty wfont (some wconfig) none ∧
    wtrio.build_lookup wfont [] = wtrio.build_lookup wfont [] ∧
    wtrio.add_to_table wfont add_gpos_table "chws" =
      wtrio.add_to_table wfont add_gpos_table "chws" ∧
    List.Sorted (· ≤ ·) (sortedIds wtrio.left) ∧
    List.Sorted (· ≤ ·) (sortedIds wtrio.right) ∧
    List.Sorted (· ≤ ·) (sortedIds wtrio.middle) :=
  pipeline_deterministic wfont wfont (some wconfig) none GlyphSetTrio.empty wtrio
    [] add_gpos_table "chws" rfl rfl (fun _ _ => rfl) (fun _ _ => rfl)
    (fun _ => rfl) rfl rfl

/-- C4 (amended): `build_collection` groups faces by the raw file offset of
their GPOS table, with ALL faces lacking a GPOS offset sharing the single
`none`-keyed group (one fresh table is synthesized for all of them
together), not one group each.  Offset keys are distinct across groups, each
group's spacing is the per-slot union of the spacings derived from its faces
individually (so for two faces reporting the same offset one united trio is
built and the same united structure is attached for both), every recorded
face reports its group's offset, and every face of a successful pass is
recorded in the group of its own offset. -/
theorem build_collection_grouping (faces : List FaceModel)
    (groups : List SpacingEntry)
    (h : build_collection_groups faces = some groups) :
    (groups.map SpacingEntry.offset_key).Nodup ∧
    (∀ e ∈ groups, e.spacing = union_spacing_of faces e.face_indices) ∧
    (∀ e ∈ groups, ∀ i ∈ e.face_indices, ∃ f, faces.get? i = some f ∧
      f.gpos_offset = e.offset_key) ∧
    (∀ i f, faces.get? i = some f →
      ∃ e ∈ groups, i ∈ e.face_indices ∧ e.offset_key = f.gpos_offset) := by
  have hbase : GroupsInv faces 0 [] :=
    ⟨List.nodup_nil, fun e he => absurd he (List.not_mem_nil e),
      fun i f hi _ => absurd hi (Nat.not_lt_zero i)⟩
  have hfold := fold_groups_inv faces faces 0 [] groups
    (fun k _ => by simp) hbase h
  obtain ⟨h1, h2, h3⟩ := hfold
  refine ⟨h1, fun e he => (h2 e he).1, fun e he => (h2 e he).2, ?_⟩
  intro i f hif
  have hi : i < faces.length := by
    by_contra hge
    rw [List.get?_eq_none.mpr (le_of_not_lt hge)] at hif
    cases hif
  exact h3 i f (by omega) hif

/-- Two faces sharing GPOS offset 4. -/
def wfaceA : FaceModel := ⟨false, some 4, ⟨⟨{1}, {2}, ∅⟩, GlyphSetTrio.empty⟩⟩

/-- The second face at offset 4, with its own glyphs. -/
def wfaceB : FaceModel := ⟨false, some 4, ⟨⟨{3}, ∅, ∅⟩, GlyphSetTrio.empty⟩⟩

/-- The single group the two offset-4 faces form. -/
def wgroups : List SpacingEntry :=
  [⟨some 4, ⟨⟨{1, 3}, {2}, ∅⟩, GlyphSetTrio.empty⟩, [0, 1]⟩]

/-- Witness for C4's amended statement: two faces at the same offset end in
one group holding the union of their glyph sets. -/
theorem build_collection_grouping_witness :
    (wgroups.map SpacingEntry.offset_key).Nodup ∧
    (∀ e ∈ wgroups, e.spacing = union_spacing_of [wfaceA, wfaceB] e.face_indices) ∧
    (∀ e ∈ wgroups, ∀ i ∈ e.face_indices, ∃ f, [wfaceA, wfaceB].get? i = some f ∧
      f.gpos_offset = e.offset_key) ∧
    (∀ i f, [wfaceA, wfaceB].get? i = some f →
      ∃ e ∈ wgroups, i ∈ e.face_indices ∧ e.offset_key = f.gpos_offset) :=
  build_collection_grouping [wfaceA, wfaceB] wgroups (by decide)

/-- A face with no GPOS offset. -/
def nfaceA : FaceModel := ⟨false, none, ⟨⟨{1}, ∅, ∅⟩, GlyphSetTrio.empty⟩⟩

/-- A second face with no GPOS offset and different glyphs. -/
def nfaceB : FaceModel := ⟨false, none, ⟨⟨{2}, ∅, ∅⟩, GlyphSetTrio.empty⟩⟩

/-- C4 counterexample: two faces that both lack a GPOS offset land in ONE
shared `none`-keyed group (their glyph sets united), not one group each —
the claim's "faces with no GPOS table offset are each treated as their own
group" fails on the code. -/
theorem none_offset_shared_group_cex :
    build_collection_groups [nfaceA, nfaceB] =
      some [⟨none, ⟨⟨{1, 2}, ∅, ∅⟩, GlyphSetTrio.empty⟩, [0, 1]⟩] ∧
    (build_collection_groups [nfaceA, nfaceB]).map List.length = some 1 ∧
    (1 : ℕ) ≠ 2 := by
  decide

/-- C7 counterexample: with glyph 5 already cached as `L`, vertical
colon/semicolon classification returns a trio whose `left` set is `{5}` —
"the returned trio's left set is empty" fails on the code. -/
theorem vertical_colon_left_nonempty_cex :
    GlyphSetTrio.get_colon_semicolon vfont wconfig (some vcache) =
      .ok ⟨{5}, ∅, ∅⟩ ∧ ({5} : Finset ℕ) ≠ ∅ := by
  decide

end ContextualSpacing
